import Mathlib

/-!
Verification of the sandbox-lifecycle core of the open-lambda worker
(`worker/handler/handler.go`): the `HandlerSet` registry, the per-lambda
`Handler` state machine (`RunStart`, `RunFinish`, `StopIfPaused`), and its
interaction with the `HandlerLRU` eviction structure.

External collaborators (the registry manager's `Pull`, `os.MkdirAll`, the
sandbox factory's `Create`, and the sandbox operations `State`, `Start`,
`Pause`, `Unpause`, `Stop`, `Channel`) are modelled as oracles: an `Env`
record supplies the outcome of each collaborator call performed during one
operation.  Opaque collaborator errors are numeric codes, wrapped by a
constructor recording which call produced them; the only error constructed
by handler.go itself ("forkenter only supported with ContainerSandbox") is
the distinguished `capabilityErr`.
-/

namespace OpenLambda

/-- Modelled from the spec: the coarse sandbox state enumeration of package
`worker/handler/state` (source not under src/): `Unitialized` (sic, the
source's spelling), `Stopped`, `Paused`, `Running`. -/
inductive HandlerState where
  | Unitialized
  | Stopped
  | Paused
  | Running
deriving DecidableEq, Repr

/-- A sandbox handle, as the lifecycle core sees it: an opaque identity plus
whether the concrete implementation satisfies the `sb.ContainerSandbox`
capability (the type assertion in `RunStart`). -/
structure Sandbox where
  sbId : Nat
  isContainer : Bool
deriving DecidableEq, Repr

/-- An opaque `*sb.SandboxChannel` dispatch handle. -/
structure SandboxChannel where
  chId : Nat
deriving DecidableEq, Repr

/-- Errors a `RunStart` call can surface.  Collaborator errors carry the
opaque code supplied by the environment, tagged with the call that produced
them; `capabilityErr` is the error `handler.go` itself constructs
("forkenter only supported with ContainerSandbox"). -/
inductive Err where
  | pullErr (code : Nat)
  | mkdirErr (code : Nat)
  | createErr (code : Nat)
  | stateErr (code : Nat)
  | startErr (code : Nat)
  | unpauseErr (code : Nat)
  | capabilityErr
  | channelErr (code : Nat)
deriving DecidableEq, Repr

instance {ε α : Type} [DecidableEq ε] [DecidableEq α] : DecidableEq (Except ε α) :=
  fun a b =>
    match a, b with
    | .ok x, .ok y => if h : x = y then .isTrue (by rw [h]) else .isFalse (by simp [h])
    | .error x, .error y => if h : x = y then .isTrue (by rw [h]) else .isFalse (by simp [h])
    | .ok _, .error _ => .isFalse (by simp)
    | .error _, .ok _ => .isFalse (by simp)

/-- The mutable fields of a `Handler` (handler.go's struct, minus the lock
and the back-pointer to the set): name, optional sandbox handle, optional
last-pull timestamp, cached coarse state, runner count (a Go `int`, so it
is a signed integer), and code directory. -/
structure Handler where
  name : String
  sandbox : Option Sandbox
  lastPull : Option Nat
  state : HandlerState
  runners : Int
  codeDir : String
deriving DecidableEq, Repr

/-- The handler freshly allocated by `HandlerSet.Get` when no handler for
the name exists: `state: state.Unitialized, runners: 0`, all other fields
at their Go zero values. -/
def newHandler (name : String) : Handler :=
  { name := name
    sandbox := none
    lastPull := none
    state := .Unitialized
    runners := 0
    codeDir := "" }

/-- Collaborator outcomes for one operation: each field is the result the
corresponding external call would return if made during this operation.
`stateResult` mirrors Go's two-valued return of `sandbox.State()`: a state
together with an optional error (the state component is assigned to
`h.state` even when the error is non-nil, exactly as the Go assignment
`h.state, err = sandbox.State()` does).  For the `Option Nat` fields,
`none` means the call succeeds and `some code` that it fails. -/
structure Env where
  pullResult : Except Nat String
  pullTime : Nat
  mkdirResult : Option Nat
  createResult : Except Nat Sandbox
  stateResult : HandlerState × Option Nat
  startResult : Option Nat
  unpauseResult : Option Nat
  pauseResult : Option Nat
  stopResult : Option Nat
  channelResult : Except Nat SandboxChannel
deriving Repr

/-- Observable collaborator calls made during one operation, in order. -/
inductive Event where
  | pullEv
  | mkdirEv
  | createEv
  | stateEv
  | startEv
  | unpauseEv
  | pauseEv
  | stopEv
  | forkEnterEv
  | channelEv
deriving DecidableEq, Repr

/-- Modelled from the spec: `HandlerLRU.Add` (the HandlerLRU source is not
under src/) inserts/refreshes the controller as the most-recently-paused
entry of the eviction structure.  The capacity-eviction sweep is omitted:
`NewHandlerSet` defaults the capacity to 0, which the spec reads as
unbounded, and no claim here depends on the sweep. -/
def lruAdd (lru : List String) (name : String) : List String :=
  name :: lru.filter (fun n => n ≠ name)

/-- Modelled from the spec: `HandlerLRU.Remove` removes the controller from
the eviction structure unconditionally (safe when absent). -/
def lruRemove (lru : List String) (name : String) : List String :=
  lru.filter (fun n => n ≠ name)

/-- The state one lifecycle controller operates on: its own fields, the
shared eviction structure (as the list of member names, most recent first),
and whether the worker is configured with a pool manager (`hset.poolMgr !=
nil`, fixed at worker start and never mutated by the operations). -/
structure HState where
  h : Handler
  lru : List String
  poolMgr : Bool
deriving DecidableEq, Repr

/-- Result of `RunStart`: the returned channel or error, the post state,
and the trace of collaborator calls made. -/
structure RunStartRes where
  res : Except Err SandboxChannel
  st : HState
  events : List Event
deriving Repr

/-- Tail of `RunStart` (handler.go:163-167): `h.state = state.Running;
h.runners += 1; return h.sandbox.Channel()`.  The state and runner-count
mutations happen before the channel acquisition, so they persist even when
`Channel()` fails. -/
def RunStartFinish (st : HState) (env : Env) (evs : List Event) : RunStartRes :=
  let st' := { st with h := { st.h with state := .Running, runners := st.h.runners + 1 } }
  match env.channelResult with
  | .error e => ⟨.error (.channelErr e), st', evs ++ [.channelEv]⟩
  | .ok c => ⟨.ok c, st', evs ++ [.channelEv]⟩

/-- The pool-manager block of `RunStart` (handler.go:149-156): when a pool
manager is configured, the sandbox must satisfy the `ContainerSandbox`
capability — otherwise the call aborts with the capability error; when it
does, `poolMgr.ForkEnter(containerSB)` is invoked. -/
def RunStartPool (st : HState) (sbx : Sandbox) (env : Env) (evs : List Event) : RunStartRes :=
  if st.poolMgr then
    if sbx.isContainer then
      RunStartFinish st env (evs ++ [.forkEnterEv])
    else
      ⟨.error .capabilityErr, st, evs⟩
  else
    RunStartFinish st env evs

/-- The "let it run" block of `RunStart` (handler.go:141-147): a newly
created sandbox reporting `Stopped` is started, one reporting `Paused` is
unpaused; a failure of either aborts.  Note the cached `h.state` is not
updated here — it still holds the queried state until `RunStartFinish`. -/
def RunStartLetRun (st : HState) (sbx : Sandbox) (env : Env) (evs : List Event) : RunStartRes :=
  if st.h.state = .Stopped then
    match env.startResult with
    | some e => ⟨.error (.startErr e), st, evs ++ [.startEv]⟩
    | none => RunStartPool st sbx env (evs ++ [.startEv])
  else if st.h.state = .Paused then
    match env.unpauseResult with
    | some e => ⟨.error (.unpauseErr e), st, evs ++ [.unpauseEv]⟩
    | none => RunStartPool st sbx env (evs ++ [.unpauseEv])
  else
    RunStartPool st sbx env evs

/-- The sandbox block of `RunStart` (handler.go:121-162): if no sandbox
exists, make the sandbox directory, create the sandbox, record it, query
and record its state (`h.state, err = sandbox.State()` assigns the state
component even on error), let it run, and run the pool-manager block; if a
sandbox exists and the cached state is `Paused`, unpause it and remove the
handler from the LRU. -/
def RunStartSandbox (st : HState) (env : Env) (evs : List Event) : RunStartRes :=
  match st.h.sandbox with
  | none =>
    match env.mkdirResult with
    | some e => ⟨.error (.mkdirErr e), st, evs ++ [.mkdirEv]⟩
    | none =>
      match env.createResult with
      | .error e => ⟨.error (.createErr e), st, evs ++ [.mkdirEv, .createEv]⟩
      | .ok sbx =>
        let st' := { st with h := { st.h with sandbox := some sbx, state := env.stateResult.1 } }
        match env.stateResult.2 with
        | some e => ⟨.error (.stateErr e), st', evs ++ [.mkdirEv, .createEv, .stateEv]⟩
        | none => RunStartLetRun st' sbx env (evs ++ [.mkdirEv, .createEv, .stateEv])
  | some _ =>
    if st.h.state = .Paused then
      match env.unpauseResult with
      | some e => ⟨.error (.unpauseErr e), st, evs ++ [.unpauseEv]⟩
      | none =>
        RunStartFinish { st with lru := lruRemove st.lru st.h.name } env (evs ++ [.unpauseEv])
    else
      RunStartFinish st env evs

/-- `Handler.RunStart` (handler.go:106-168): pull the code if it was never
pulled (recording timestamp and directory on success), then run the
sandbox block. -/
def RunStart (st : HState) (env : Env) : RunStartRes :=
  match st.h.lastPull with
  | none =>
    match env.pullResult with
    | .error e => ⟨.error (.pullErr e), st, [.pullEv]⟩
    | .ok codeDir =>
      RunStartSandbox
        { st with h := { st.h with lastPull := some env.pullTime, codeDir := codeDir } }
        env [.pullEv]
  | some _ => RunStartSandbox st env []

/-- `Handler.RunFinish` (handler.go:173-190): decrement the runner count;
if it reached 0, attempt `sandbox.Pause()` (a failure is only logged), set
the state to `Paused` and add the handler to the LRU.  The Go function has
no error return: the model is total and yields only the post state and the
call trace. -/
def RunFinish (st : HState) (_env : Env) : HState × List Event :=
  let h := { st.h with runners := st.h.runners - 1 }
  if h.runners = 0 then
    ({ st with h := { h with state := .Paused }, lru := lruAdd st.lru h.name }, [.pauseEv])
  else
    ({ st with h := h }, [])

/-- `Handler.StopIfPaused` (handler.go:193-210): a no-op unless the cached
state is exactly `Paused`; then attempt `Unpause()` and, if it succeeded,
`Stop()`; only when both succeed is the state set to `Stopped` — on either
failure the state is left at `Paused` (and only a log line is emitted; the
Go function has no error return). -/
def StopIfPaused (st : HState) (env : Env) : HState × List Event :=
  if st.h.state = .Paused then
    match env.unpauseResult with
    | some _ => (st, [.unpauseEv])
    | none =>
      match env.stopResult with
      | some _ => (st, [.unpauseEv, .stopEv])
      | none => ({ st with h := { st.h with state := .Stopped } }, [.unpauseEv, .stopEv])
  else
    (st, [])

/-! ## The registry (`HandlerSet`) -/

/-- The registry's handler map (`handlers map[string]*Handler`), as an
association list in insertion order.  An entry's value is the handler as
created; `Get` never overwrites an existing entry, which models Go's
pointer identity: the stored instance for a name is fixed at creation. -/
structure HandlerSet where
  handlers : List (String × Handler)
deriving DecidableEq, Repr

/-- The empty registry produced by `NewHandlerSet`. -/
def emptySet : HandlerSet := ⟨[]⟩

/-- Map lookup `h.handlers[name]`. -/
def findHandler (l : List (String × Handler)) (name : String) : Option Handler :=
  match l with
  | [] => none
  | (n, h) :: rest => if n = name then some h else findHandler rest name

/-- Result of `HandlerSet.Get`: the returned handler, the updated registry,
and whether this call created the handler. -/
structure GetRes where
  h : Handler
  hs : HandlerSet
  created : Bool
deriving DecidableEq, Repr

/-- `HandlerSet.Get` (handler.go:74-90): return the registered handler for
`name`; if none exists, allocate a fresh one in state `Unitialized` with
`runners = 0`, register it, and return it. -/
def HandlerSet.Get (hs : HandlerSet) (name : String) : GetRes :=
  match findHandler hs.handlers name with
  | some h => ⟨h, hs, false⟩
  | none => ⟨newHandler name, ⟨hs.handlers ++ [(name, newHandler name)]⟩, true⟩

/-- Run a sequence of `Get` calls; collect, for the observed name `t`, the
handlers returned by the calls with that name and the number of those calls
that created an instance. -/
def getsTrace (hs : HandlerSet) (names : List String) (t : String) :
    HandlerSet × List Handler × Nat :=
  match names with
  | [] => (hs, [], 0)
  | n :: rest =>
    ((getsTrace (hs.Get n).hs rest t).1,
     (if n = t then [(hs.Get n).h] else []) ++ (getsTrace (hs.Get n).hs rest t).2.1,
     (if n = t ∧ (hs.Get n).created = true then 1 else 0) + (getsTrace (hs.Get n).hs rest t).2.2)

/-! ## Operation sequences on one controller -/

/-- One call on a controller, together with the collaborator outcomes the
environment supplies for that call.  `getOp` is a repeated `Get` of the
controller's name: it returns the registered instance and mutates
nothing. -/
inductive Op where
  | runStartOp (env : Env)
  | runFinishOp (env : Env)
  | stopIfPausedOp (env : Env)
  | getOp

/-- Apply one call to the controller state. -/
def stepOp (st : HState) (op : Op) : HState :=
  match op with
  | .runStartOp env => (RunStart st env).st
  | .runFinishOp env => (RunFinish st env).1
  | .stopIfPausedOp env => (StopIfPaused st env).1
  | .getOp => st

/-- Apply a sequence of calls. -/
def runOps (st : HState) (ops : List Op) : HState :=
  match ops with
  | [] => st
  | op :: rest => runOps (stepOp st op) rest

/-- Whether `RunStart` returned a channel. -/
def resOk (r : Except Err SandboxChannel) : Bool :=
  match r with
  | .ok _ => true
  | .error _ => false

/-- The matching discipline of the claims: along the sequence, each
`RunFinish` is preceded by a matching *successful* `RunStart` — tracked by
the balance `bal` of successful starts not yet finished; a `RunFinish`
with no pending successful start is ill-formed.  Failing `RunStart` calls
are allowed and do not add to the balance. -/
def TraceWF (st : HState) (bal : Nat) (ops : List Op) : Bool :=
  match ops with
  | [] => true
  | .runStartOp env :: rest =>
    TraceWF (RunStart st env).st (if resOk (RunStart st env).res then bal + 1 else bal) rest
  | .runFinishOp env :: rest =>
    decide (1 ≤ bal) && TraceWF (RunFinish st env).1 (bal - 1) rest
  | .stopIfPausedOp env :: rest => TraceWF (StopIfPaused st env).1 bal rest
  | .getOp :: rest => TraceWF st bal rest

/-- Every `RunStart` in the sequence succeeds. -/
def StartsOk (st : HState) (ops : List Op) : Bool :=
  match ops with
  | [] => true
  | .runStartOp env :: rest => resOk (RunStart st env).res && StartsOk (stepOp st (.runStartOp env)) rest
  | op :: rest => StartsOk (stepOp st op) rest

/-- The observation-point invariant of the spec: the runner count is
non-negative; `Running` implies at least one runner; zero runners implies
`Paused`, `Stopped` or `Unitialized`; a positive runner count implies
`Running`. -/
def Invariant (h : Handler) : Prop :=
  0 ≤ h.runners ∧
  (h.state = .Running → 1 ≤ h.runners) ∧
  (h.runners = 0 → h.state = .Paused ∨ h.state = .Stopped ∨ h.state = .Unitialized) ∧
  (0 < h.runners → h.state = .Running)

instance (h : Handler) : Decidable (Invariant h) := by
  unfold Invariant
  infer_instance

/-- A collaborator environment in which every call succeeds; concrete
inputs for witnesses are built from it by overriding fields. -/
def envOk : Env :=
  { pullResult := .ok "codedir"
    pullTime := 7
    mkdirResult := none
    createResult := .ok ⟨1, true⟩
    stateResult := (.Stopped, none)
    startResult := none
    unpauseResult := none
    pauseResult := none
    stopResult := none
    channelResult := .ok ⟨3⟩ }


/-! ### Characterization lemmas for the stages of RunStart -/

theorem finish_st (st : HState) (env : Env) (evs : List Event) :
    (RunStartFinish st env evs).st =
      { st with h := { st.h with state := .Running, runners := st.h.runners + 1 } } := by
  unfold RunStartFinish
  split <;> rfl

theorem finish_events (st : HState) (env : Env) (evs : List Event) :
    (RunStartFinish st env evs).events = evs ++ [.channelEv] := by
  unfold RunStartFinish
  split <;> rfl

theorem finish_res_ok (st : HState) (env : Env) (evs : List Event) (c : SandboxChannel)
    (h : env.channelResult = .ok c) :
    (RunStartFinish st env evs).res = .ok c := by
  unfold RunStartFinish
  split <;> simp_all

theorem finish_res_err (st : HState) (env : Env) (evs : List Event) (e : Err)
    (h : (RunStartFinish st env evs).res = .error e) :
    ∃ code, e = .channelErr code ∧ env.channelResult = .error code := by
  unfold RunStartFinish at h
  split at h <;> simp_all

theorem pool_no_mgr (st : HState) (sbx : Sandbox) (env : Env) (evs : List Event)
    (h : st.poolMgr = false) :
    RunStartPool st sbx env evs = RunStartFinish st env evs := by
  unfold RunStartPool
  simp [h]

theorem pool_container (st : HState) (sbx : Sandbox) (env : Env) (evs : List Event)
    (h : st.poolMgr = true) (hc : sbx.isContainer = true) :
    RunStartPool st sbx env evs = RunStartFinish st env (evs ++ [.forkEnterEv]) := by
  unfold RunStartPool
  simp [h, hc]

theorem pool_mismatch (st : HState) (sbx : Sandbox) (env : Env) (evs : List Event)
    (h : st.poolMgr = true) (hc : sbx.isContainer = false) :
    RunStartPool st sbx env evs = ⟨.error .capabilityErr, st, evs⟩ := by
  unfold RunStartPool
  simp [h, hc]

theorem pool_cap_err (st : HState) (sbx : Sandbox) (env : Env) (evs : List Event)
    (h : (RunStartPool st sbx env evs).res = .error .capabilityErr) :
    st.poolMgr = true ∧ sbx.isContainer = false ∧
      RunStartPool st sbx env evs = ⟨.error .capabilityErr, st, evs⟩ := by
  unfold RunStartPool at *
  split at h
  · split at h
    · exact absurd (finish_res_err _ _ _ _ h) (by simp)
    · simp_all
  · exact absurd (finish_res_err _ _ _ _ h) (by simp)

theorem letRun_stopped_fail (st : HState) (sbx : Sandbox) (env : Env) (evs : List Event)
    (hs : st.h.state = .Stopped) (he : env.startResult = some e) :
    RunStartLetRun st sbx env evs = ⟨.error (.startErr e), st, evs ++ [.startEv]⟩ := by
  unfold RunStartLetRun
  simp [hs, he]

theorem letRun_stopped_ok (st : HState) (sbx : Sandbox) (env : Env) (evs : List Event)
    (hs : st.h.state = .Stopped) (he : env.startResult = none) :
    RunStartLetRun st sbx env evs = RunStartPool st sbx env (evs ++ [.startEv]) := by
  unfold RunStartLetRun
  simp [hs, he]

theorem letRun_paused_fail (st : HState) (sbx : Sandbox) (env : Env) (evs : List Event)
    (hs : st.h.state = .Paused) (he : env.unpauseResult = some e) :
    RunStartLetRun st sbx env evs = ⟨.error (.unpauseErr e), st, evs ++ [.unpauseEv]⟩ := by
  unfold RunStartLetRun
  simp [hs, he]

theorem letRun_paused_ok (st : HState) (sbx : Sandbox) (env : Env) (evs : List Event)
    (hs : st.h.state = .Paused) (he : env.unpauseResult = none) :
    RunStartLetRun st sbx env evs = RunStartPool st sbx env (evs ++ [.unpauseEv]) := by
  unfold RunStartLetRun
  simp [hs, he]

theorem letRun_other (st : HState) (sbx : Sandbox) (env : Env) (evs : List Event)
    (h1 : st.h.state ≠ .Stopped) (h2 : st.h.state ≠ .Paused) :
    RunStartLetRun st sbx env evs = RunStartPool st sbx env evs := by
  unfold RunStartLetRun
  simp [h1, h2]

theorem sandbox_mkdir_fail (st : HState) (env : Env) (evs : List Event)
    (hs : st.h.sandbox = none) (he : env.mkdirResult = some e) :
    RunStartSandbox st env evs = ⟨.error (.mkdirErr e), st, evs ++ [.mkdirEv]⟩ := by
  unfold RunStartSandbox
  simp [hs, he]

theorem sandbox_create_fail (st : HState) (env : Env) (evs : List Event)
    (hs : st.h.sandbox = none) (hm : env.mkdirResult = none)
    (he : env.createResult = .error e) :
    RunStartSandbox st env evs = ⟨.error (.createErr e), st, evs ++ [.mkdirEv, .createEv]⟩ := by
  unfold RunStartSandbox
  simp [hs, hm, he]

theorem sandbox_state_fail (st : HState) (env : Env) (evs : List Event) (sbx : Sandbox)
    (hs : st.h.sandbox = none) (hm : env.mkdirResult = none)
    (hc : env.createResult = .ok sbx) (hq : env.stateResult.2 = some e) :
    RunStartSandbox st env evs =
      ⟨.error (.stateErr e),
       { st with h := { st.h with sandbox := some sbx, state := env.stateResult.1 } },
       evs ++ [.mkdirEv, .createEv, .stateEv]⟩ := by
  unfold RunStartSandbox
  simp [hs, hm, hc, hq]

theorem sandbox_state_ok (st : HState) (env : Env) (evs : List Event) (sbx : Sandbox)
    (hs : st.h.sandbox = none) (hm : env.mkdirResult = none)
    (hc : env.createResult = .ok sbx) (hq : env.stateResult.2 = none) :
    RunStartSandbox st env evs =
      RunStartLetRun
        { st with h := { st.h with sandbox := some sbx, state := env.stateResult.1 } }
        sbx env (evs ++ [.mkdirEv, .createEv, .stateEv]) := by
  unfold RunStartSandbox
  simp [hs, hm, hc, hq]

theorem sandbox_warm_paused_fail (st : HState) (env : Env) (evs : List Event) (sbx : Sandbox)
    (hs : st.h.sandbox = some sbx) (hp : st.h.state = .Paused)
    (he : env.unpauseResult = some e) :
    RunStartSandbox st env evs = ⟨.error (.unpauseErr e), st, evs ++ [.unpauseEv]⟩ := by
  unfold RunStartSandbox
  simp [hs, hp, he]

theorem sandbox_warm_paused_ok (st : HState) (env : Env) (evs : List Event) (sbx : Sandbox)
    (hs : st.h.sandbox = some sbx) (hp : st.h.state = .Paused)
    (he : env.unpauseResult = none) :
    RunStartSandbox st env evs =
      RunStartFinish { st with lru := lruRemove st.lru st.h.name } env (evs ++ [.unpauseEv]) := by
  unfold RunStartSandbox
  simp [hs, hp, he]

theorem sandbox_warm_other (st : HState) (env : Env) (evs : List Event) (sbx : Sandbox)
    (hs : st.h.sandbox = some sbx) (hp : st.h.state ≠ .Paused) :
    RunStartSandbox st env evs = RunStartFinish st env evs := by
  unfold RunStartSandbox
  simp [hs, hp]

theorem runStart_pull_fail (st : HState) (env : Env)
    (hl : st.h.lastPull = none) (he : env.pullResult = .error e) :
    RunStart st env = ⟨.error (.pullErr e), st, [.pullEv]⟩ := by
  unfold RunStart
  simp [hl, he]

theorem runStart_pull_ok (st : HState) (env : Env) (d : String)
    (hl : st.h.lastPull = none) (he : env.pullResult = .ok d) :
    RunStart st env =
      RunStartSandbox
        { st with h := { st.h with lastPull := some env.pullTime, codeDir := d } }
        env [.pullEv] := by
  unfold RunStart
  simp [hl, he]

theorem runStart_pulled (st : HState) (env : Env) (t : Nat)
    (hl : st.h.lastPull = some t) :
    RunStart st env = RunStartSandbox st env [] := by
  unfold RunStart
  simp [hl]

end OpenLambda

namespace OpenLambda

/-! ### Shape lemmas: any result that passes the final stage has already
set the state to Running and incremented the runner count. -/

/-- The result is an `ok` channel or a channel-acquisition error: exactly
the results that can only be produced by `RunStartFinish`. -/
def ThroughFinish (r : RunStartRes) : Prop :=
  (∃ c, r.res = .ok c) ∨ (∃ e, r.res = .error (.channelErr e))

theorem finish_through (st : HState) (env : Env) (evs : List Event) :
    ThroughFinish (RunStartFinish st env evs) := by
  unfold ThroughFinish RunStartFinish
  split <;> simp

theorem pool_through_st (st : HState) (sbx : Sandbox) (env : Env) (evs : List Event) :
    ThroughFinish (RunStartPool st sbx env evs) →
    (RunStartPool st sbx env evs).st =
      { st with h := { st.h with state := .Running, runners := st.h.runners + 1 } } := by
  unfold RunStartPool
  split
  · split
    · intro _
      exact finish_st _ _ _
    · intro h
      unfold ThroughFinish at h
      simp at h
  · intro _
    exact finish_st _ _ _

theorem letRun_through_st (st : HState) (sbx : Sandbox) (env : Env) (evs : List Event) :
    ThroughFinish (RunStartLetRun st sbx env evs) →
    (RunStartLetRun st sbx env evs).st =
      { st with h := { st.h with state := .Running, runners := st.h.runners + 1 } } := by
  unfold RunStartLetRun
  split
  · split
    · intro h
      unfold ThroughFinish at h
      simp at h
    · exact pool_through_st _ _ _ _
  · split
    · split
      · intro h
        unfold ThroughFinish at h
        simp at h
      · exact pool_through_st _ _ _ _
    · exact pool_through_st _ _ _ _

theorem sandbox_through_st (st : HState) (env : Env) (evs : List Event) :
    ThroughFinish (RunStartSandbox st env evs) →
    (RunStartSandbox st env evs).st.h.state = .Running ∧
    (RunStartSandbox st env evs).st.h.runners = st.h.runners + 1 := by
  unfold RunStartSandbox
  split
  · split
    · intro h
      unfold ThroughFinish at h
      simp at h
    · split
      · intro h
        unfold ThroughFinish at h
        simp at h
      · split
        · intro h
          unfold ThroughFinish at h
          simp at h
        · intro h
          rw [letRun_through_st _ _ _ _ h]
          simp
  · split
    · split
      · intro h
        unfold ThroughFinish at h
        simp at h
      · intro _
        rw [finish_st]
        simp
    · intro _
      rw [finish_st]
      simp

theorem runStart_through_st (st : HState) (env : Env) :
    ThroughFinish (RunStart st env) →
    (RunStart st env).st.h.state = .Running ∧
    (RunStart st env).st.h.runners = st.h.runners + 1 := by
  unfold RunStart
  split
  · split
    · intro h
      unfold ThroughFinish at h
      simp at h
    · intro h
      have := sandbox_through_st _ _ _ h
      exact ⟨this.1, by rw [this.2]⟩
  · exact sandbox_through_st _ _ _

/-! ### Characterizations of RunFinish and StopIfPaused -/

theorem runFinish_runners (st : HState) (env : Env) :
    (RunFinish st env).1.h.runners = st.h.runners - 1 := by
  unfold RunFinish
  dsimp only
  split <;> simp

theorem runFinish_last (st : HState) (env : Env) (h : st.h.runners - 1 = 0) :
    (RunFinish st env).1 =
      { st with h := { st.h with runners := st.h.runners - 1, state := .Paused },
                lru := lruAdd st.lru st.h.name } ∧
    (RunFinish st env).2 = [.pauseEv] := by
  unfold RunFinish
  simp [h]

theorem runFinish_not_last (st : HState) (env : Env) (h : st.h.runners - 1 ≠ 0) :
    (RunFinish st env).1 = { st with h := { st.h with runners := st.h.runners - 1 } } ∧
    (RunFinish st env).2 = [] := by
  unfold RunFinish
  simp [h]

theorem stop_not_paused (st : HState) (env : Env) (h : st.h.state ≠ .Paused) :
    StopIfPaused st env = (st, []) := by
  unfold StopIfPaused
  simp [h]

theorem stop_unpause_fail (st : HState) (env : Env)
    (h : st.h.state = .Paused) (hu : env.unpauseResult = some e) :
    StopIfPaused st env = (st, [.unpauseEv]) := by
  unfold StopIfPaused
  simp [h, hu]

theorem stop_stop_fail (st : HState) (env : Env)
    (h : st.h.state = .Paused) (hu : env.unpauseResult = none)
    (hs : env.stopResult = some e) :
    StopIfPaused st env = (st, [.unpauseEv, .stopEv]) := by
  unfold StopIfPaused
  simp [h, hu, hs]

theorem stop_both_ok (st : HState) (env : Env)
    (h : st.h.state = .Paused) (hu : env.unpauseResult = none)
    (hs : env.stopResult = none) :
    StopIfPaused st env =
      ({ st with h := { st.h with state := .Stopped } }, [.unpauseEv, .stopEv]) := by
  unfold StopIfPaused
  simp [h, hu, hs]

theorem stop_shape (st : HState) (env : Env) :
    (StopIfPaused st env).1 = st ∨
      (st.h.state = .Paused ∧
       (StopIfPaused st env).1 = { st with h := { st.h with state := .Stopped } }) := by
  unfold StopIfPaused
  split
  · split
    · simp
    · split <;> simp_all
  · simp

/-! ### Event-trace lemmas: which collaborator calls a RunStart can make -/

/-- Tail events added after the pull stage: never a pull, and never a
fork-enter registration when no pool manager is configured. -/
def TailProp (pm : Bool) (t : List Event) : Prop :=
  ∀ ev ∈ t, ev ≠ .pullEv ∧ (pm = false → ev ≠ .forkEnterEv)

theorem pool_events_tail (st : HState) (sbx : Sandbox) (env : Env) (evs : List Event) :
    ∃ t, (RunStartPool st sbx env evs).events = evs ++ t ∧ TailProp st.poolMgr t := by
  unfold RunStartPool
  split
  · split
    · refine ⟨[.forkEnterEv, .channelEv], ?_, ?_⟩
      · rw [finish_events]
        simp
      · simp_all [TailProp]
    · exact ⟨[], by simp, by simp [TailProp]⟩
  · refine ⟨[.channelEv], ?_, ?_⟩
    · rw [finish_events]
    · simp [TailProp]

theorem letRun_events_tail (st : HState) (sbx : Sandbox) (env : Env) (evs : List Event) :
    ∃ t, (RunStartLetRun st sbx env evs).events = evs ++ t ∧ TailProp st.poolMgr t := by
  unfold RunStartLetRun
  split
  · split
    · exact ⟨[.startEv], by simp, by simp [TailProp]⟩
    · obtain ⟨t, ht, hp⟩ := pool_events_tail st sbx env (evs ++ [.startEv])
      refine ⟨.startEv :: t, by simp [ht], ?_⟩
      intro ev hev
      rcases List.mem_cons.mp hev with h | h
      · simp [h]
      · exact hp ev h
  · split
    · split
      · exact ⟨[.unpauseEv], by simp, by simp [TailProp]⟩
      · obtain ⟨t, ht, hp⟩ := pool_events_tail st sbx env (evs ++ [.unpauseEv])
        refine ⟨.unpauseEv :: t, by simp [ht], ?_⟩
        intro ev hev
        rcases List.mem_cons.mp hev with h | h
        · simp [h]
        · exact hp ev h
    · exact pool_events_tail st sbx env evs

theorem sandbox_events_tail (st : HState) (env : Env) (evs : List Event) :
    ∃ t, (RunStartSandbox st env evs).events = evs ++ t ∧ TailProp st.poolMgr t := by
  unfold RunStartSandbox
  split
  · split
    · exact ⟨[.mkdirEv], by simp, by simp [TailProp]⟩
    · split
      · exact ⟨[.mkdirEv, .createEv], by simp, by simp [TailProp]⟩
      · split
        · exact ⟨[.mkdirEv, .createEv, .stateEv], by simp, by simp [TailProp]⟩
        · rename_i sbx _ _ _
          obtain ⟨t, ht, hp⟩ :=
            letRun_events_tail
              { st with h := { st.h with sandbox := some sbx, state := env.stateResult.1 } }
              sbx env (evs ++ [.mkdirEv, .createEv, .stateEv])
          refine ⟨[.mkdirEv, .createEv, .stateEv] ++ t, by simp [ht], ?_⟩
          intro ev hev
          rcases List.mem_append.mp hev with h | h
          · simp at h
            rcases h with h | h | h <;> simp [h]
          · exact hp ev h
  · split
    · split
      · exact ⟨[.unpauseEv], by simp, by simp [TailProp]⟩
      · refine ⟨[.unpauseEv, .channelEv], ?_, by simp [TailProp]⟩
        rw [finish_events]
        simp
    · refine ⟨[.channelEv], ?_, by simp [TailProp]⟩
      rw [finish_events]

theorem runStart_events (st : HState) (env : Env) :
    (∃ t, ((RunStart st env).events = t ∨ (RunStart st env).events = .pullEv :: t) ∧
      TailProp st.poolMgr t) ∧
    (st.h.lastPull ≠ none → ∃ t, (RunStart st env).events = t ∧ TailProp st.poolMgr t) := by
  unfold RunStart
  split
  · split
    · refine ⟨⟨[], Or.inr rfl, by simp [TailProp]⟩, ?_⟩
      simp_all
    · constructor
      · obtain ⟨t, ht, hp⟩ :=
          sandbox_events_tail
            { st with h := { st.h with lastPull := some env.pullTime, codeDir := _ } }
            env [.pullEv]
        exact ⟨t, Or.inr (by simpa using ht), hp⟩
      · simp_all
  · constructor
    · obtain ⟨t, ht, hp⟩ := sandbox_events_tail st env []
      exact ⟨t, Or.inl (by simpa using ht), hp⟩
    · intro _
      obtain ⟨t, ht, hp⟩ := sandbox_events_tail st env []
      exact ⟨t, by simpa using ht, hp⟩

theorem runStart_no_pull_event (st : HState) (env : Env) (t0 : Nat)
    (h : st.h.lastPull = some t0) :
    .pullEv ∉ (RunStart st env).events := by
  obtain ⟨t, ht, hp⟩ := (runStart_events st env).2 (by simp [h])
  rw [ht]
  intro hmem
  exact (hp _ hmem).1 rfl

theorem runStart_no_fork_event (st : HState) (env : Env)
    (h : st.poolMgr = false) :
    .forkEnterEv ∉ (RunStart st env).events := by
  obtain ⟨⟨t, ht, hp⟩, _⟩ := runStart_events st env
  rcases ht with ht | ht <;> rw [ht] <;> intro hmem
  · exact (hp _ hmem).2 h rfl
  · rcases List.mem_cons.mp hmem with hc | hc
    · exact absurd hc (by simp)
    · exact (hp _ hc).2 h rfl
/-! ### Provenance of the capability-mismatch error -/

theorem finish_no_cap (st : HState) (env : Env) (evs : List Event) :
    (RunStartFinish st env evs).res ≠ .error .capabilityErr := by
  intro h
  obtain ⟨code, hc, _⟩ := finish_res_err _ _ _ _ h
  exact absurd hc (by simp)

theorem pool_cap (st : HState) (sbx : Sandbox) (env : Env) (evs : List Event) :
    (RunStartPool st sbx env evs).res = .error .capabilityErr →
    st.poolMgr = true ∧ sbx.isContainer = false := by
  unfold RunStartPool
  split
  · split
    · intro h
      exact absurd h (finish_no_cap _ _ _)
    · intro _
      simp_all
  · intro h
    exact absurd h (finish_no_cap _ _ _)

theorem letRun_cap (st : HState) (sbx : Sandbox) (env : Env) (evs : List Event) :
    (RunStartLetRun st sbx env evs).res = .error .capabilityErr →
    st.poolMgr = true ∧ sbx.isContainer = false := by
  unfold RunStartLetRun
  split
  · split
    · intro h
      simp_all
    · exact pool_cap _ _ _ _
  · split
    · split
      · intro h
        simp_all
      · exact pool_cap _ _ _ _
    · exact pool_cap _ _ _ _

theorem sandbox_cap (st : HState) (env : Env) (evs : List Event) :
    (RunStartSandbox st env evs).res = .error .capabilityErr →
    st.h.sandbox = none ∧ st.poolMgr = true ∧
      ∃ sbx, env.createResult = .ok sbx ∧ sbx.isContainer = false := by
  unfold RunStartSandbox
  split
  · split
    · intro h
      simp_all
    · split
      · intro h
        simp_all
      · split
        · intro h
          simp_all
        · intro h
          have hc := letRun_cap _ _ _ _ h
          exact ⟨by assumption, hc.1, ⟨_, by assumption, hc.2⟩⟩
  · split
    · split
      · intro h
        simp_all
      · intro h
        exact absurd h (finish_no_cap _ _ _)
    · intro h
      exact absurd h (finish_no_cap _ _ _)

theorem runStart_cap (st : HState) (env : Env) :
    (RunStart st env).res = .error .capabilityErr →
    st.h.sandbox = none ∧ st.poolMgr = true ∧
      ∃ sbx, env.createResult = .ok sbx ∧ sbx.isContainer = false := by
  unfold RunStart
  split
  · split
    · intro h
      simp_all
    · intro h
      have hc := sandbox_cap _ _ _ h
      exact ⟨hc.1, hc.2.1, hc.2.2⟩
  · exact sandbox_cap _ _ _

/-! ### Outcome enumeration for the cold-start path -/

theorem pool_or (st : HState) (sbx : Sandbox) (env : Env) (evs : List Event) :
    ThroughFinish (RunStartPool st sbx env evs) ∨
    ((RunStartPool st sbx env evs).res = .error .capabilityErr ∧
     (RunStartPool st sbx env evs).st = st) := by
  unfold RunStartPool
  split
  · split
    · exact Or.inl (finish_through _ _ _)
    · exact Or.inr ⟨rfl, rfl⟩
  · exact Or.inl (finish_through _ _ _)

theorem letRun_or (st : HState) (sbx : Sandbox) (env : Env) (evs : List Event) :
    ThroughFinish (RunStartLetRun st sbx env evs) ∨
    (((∃ e, (RunStartLetRun st sbx env evs).res = .error (.startErr e)) ∨
      (∃ e, (RunStartLetRun st sbx env evs).res = .error (.unpauseErr e)) ∨
      (RunStartLetRun st sbx env evs).res = .error .capabilityErr) ∧
     (RunStartLetRun st sbx env evs).st = st) := by
  unfold RunStartLetRun
  split
  · split
    · exact Or.inr ⟨Or.inl ⟨_, rfl⟩, rfl⟩
    · rcases pool_or st sbx env (evs ++ [.startEv]) with h | ⟨h1, h2⟩
      · exact Or.inl h
      · exact Or.inr ⟨Or.inr (Or.inr h1), h2⟩
  · split
    · split
      · exact Or.inr ⟨Or.inr (Or.inl ⟨_, rfl⟩), rfl⟩
      · rcases pool_or st sbx env (evs ++ [.unpauseEv]) with h | ⟨h1, h2⟩
        · exact Or.inl h
        · exact Or.inr ⟨Or.inr (Or.inr h1), h2⟩
    · rcases pool_or st sbx env evs with h | ⟨h1, h2⟩
      · exact Or.inl h
      · exact Or.inr ⟨Or.inr (Or.inr h1), h2⟩

/-- Errors arising strictly after the sandbox has been recorded. -/
def MidErr (r : RunStartRes) : Prop :=
  (∃ e, r.res = .error (.stateErr e)) ∨
  (∃ e, r.res = .error (.startErr e)) ∨
  (∃ e, r.res = .error (.unpauseErr e)) ∨
  r.res = .error .capabilityErr

theorem sandbox_cold_full (st : HState) (env : Env) (evs : List Event)
    (hsb : st.h.sandbox = none) :
    ThroughFinish (RunStartSandbox st env evs) ∨
    ((∃ e, (RunStartSandbox st env evs).res = .error (.mkdirErr e) ∨
           (RunStartSandbox st env evs).res = .error (.createErr e)) ∧
     (RunStartSandbox st env evs).st = st) ∨
    (MidErr (RunStartSandbox st env evs) ∧
     ∃ sbx, (RunStartSandbox st env evs).st =
       { st with h := { st.h with sandbox := some sbx, state := env.stateResult.1 } }) := by
  unfold RunStartSandbox
  split
  · split
    · exact Or.inr (Or.inl ⟨⟨_, Or.inl rfl⟩, rfl⟩)
    · split
      · exact Or.inr (Or.inl ⟨⟨_, Or.inr rfl⟩, rfl⟩)
      · split
        · exact Or.inr (Or.inr ⟨Or.inl ⟨_, rfl⟩, _, rfl⟩)
        · rename Sandbox => sbx
          rcases letRun_or
              { st with h := { st.h with sandbox := some sbx, state := env.stateResult.1 } }
              sbx env (evs ++ [.mkdirEv, .createEv, .stateEv]) with h | ⟨h1, h2⟩
          · exact Or.inl h
          · refine Or.inr (Or.inr ⟨?_, sbx, h2⟩)
            unfold MidErr
            rcases h1 with h1 | h1 | h1
            · exact Or.inr (Or.inl h1)
            · exact Or.inr (Or.inr (Or.inl h1))
            · exact Or.inr (Or.inr (Or.inr h1))
  · simp_all

theorem runStart_cold_full (st : HState) (env : Env) (hsb : st.h.sandbox = none) :
    ThroughFinish (RunStart st env) ∨
    ((∃ e, (RunStart st env).res = .error (.pullErr e)) ∧ (RunStart st env).st = st) ∨
    ((∃ e, (RunStart st env).res = .error (.mkdirErr e) ∨
           (RunStart st env).res = .error (.createErr e)) ∧
     (RunStart st env).st.h.sandbox = none ∧
     (RunStart st env).st.h.state = st.h.state ∧
     (RunStart st env).st.h.runners = st.h.runners ∧
     (RunStart st env).st.lru = st.lru ∧
     (st.h.lastPull = none →
       (RunStart st env).st.h.lastPull = some env.pullTime ∧
       env.pullResult = .ok (RunStart st env).st.h.codeDir) ∧
     (st.h.lastPull ≠ none → (RunStart st env).st = st)) ∨
    (MidErr (RunStart st env) ∧
     (RunStart st env).st.h.sandbox ≠ none ∧
     (RunStart st env).st.h.state = env.stateResult.1 ∧
     (RunStart st env).st.h.runners = st.h.runners) := by
  unfold RunStart
  split
  · rename_i hl
    split
    · exact Or.inr (Or.inl ⟨⟨_, rfl⟩, rfl⟩)
    · rename_i d hpull
      rcases sandbox_cold_full
          { st with h := { st.h with lastPull := some env.pullTime, codeDir := d } }
          env [.pullEv] hsb with h | ⟨h1, h2⟩ | ⟨h1, sbx, h2⟩
      · exact Or.inl h
      · refine Or.inr (Or.inr (Or.inl ⟨h1, ?_, ?_, ?_, ?_, ?_, ?_⟩)) <;>
          rw [h2] <;> simp [hl, hpull, hsb]
      · refine Or.inr (Or.inr (Or.inr ⟨h1, ?_, ?_, ?_⟩)) <;> (rw [h2]; try simp)
  · rename_i t hl
    rcases sandbox_cold_full st env [] hsb with h | ⟨h1, h2⟩ | ⟨h1, sbx, h2⟩
    · exact Or.inl h
    · refine Or.inr (Or.inr (Or.inl ⟨h1, ?_, ?_, ?_, ?_, ?_, ?_⟩)) <;>
        rw [h2] <;> simp [hsb, hl]
    · refine Or.inr (Or.inr (Or.inr ⟨h1, ?_, ?_, ?_⟩)) <;> (rw [h2]; try simp)

/-! ### The later stages never touch lastPull or codeDir -/

theorem finish_preserves (st : HState) (env : Env) (evs : List Event) :
    (RunStartFinish st env evs).st.h.lastPull = st.h.lastPull ∧
    (RunStartFinish st env evs).st.h.codeDir = st.h.codeDir := by
  rw [finish_st]
  exact ⟨rfl, rfl⟩

theorem pool_preserves (st : HState) (sbx : Sandbox) (env : Env) (evs : List Event) :
    (RunStartPool st sbx env evs).st.h.lastPull = st.h.lastPull ∧
    (RunStartPool st sbx env evs).st.h.codeDir = st.h.codeDir := by
  unfold RunStartPool
  split
  · split
    · exact finish_preserves _ _ _
    · exact ⟨rfl, rfl⟩
  · exact finish_preserves _ _ _

theorem letRun_preserves (st : HState) (sbx : Sandbox) (env : Env) (evs : List Event) :
    (RunStartLetRun st sbx env evs).st.h.lastPull = st.h.lastPull ∧
    (RunStartLetRun st sbx env evs).st.h.codeDir = st.h.codeDir := by
  unfold RunStartLetRun
  split
  · split
    · exact ⟨rfl, rfl⟩
    · exact pool_preserves _ _ _ _
  · split
    · split
      · exact ⟨rfl, rfl⟩
      · exact pool_preserves _ _ _ _
    · exact pool_preserves _ _ _ _

theorem sandbox_preserves (st : HState) (env : Env) (evs : List Event) :
    (RunStartSandbox st env evs).st.h.lastPull = st.h.lastPull ∧
    (RunStartSandbox st env evs).st.h.codeDir = st.h.codeDir := by
  unfold RunStartSandbox
  split
  · split
    · exact ⟨rfl, rfl⟩
    · split
      · exact ⟨rfl, rfl⟩
      · split
        · exact ⟨rfl, rfl⟩
        · rename Sandbox => sbx
          exact letRun_preserves
            { st with h := { st.h with sandbox := some sbx, state := env.stateResult.1 } }
            sbx env (evs ++ [.mkdirEv, .createEv, .stateEv])
  · split
    · split
      · exact ⟨rfl, rfl⟩
      · exact finish_preserves _ _ _
    · exact finish_preserves _ _ _

/-! ## Concrete controllers and environments for witnesses -/

/-- A freshly created controller (as `HandlerSet.Get` allocates it). -/
def stFresh : HState := ⟨newHandler "echo", [], false⟩

/-- A warm controller: code pulled, sandbox created, paused and idle,
registered in the eviction structure. -/
def stPaused : HState :=
  ⟨{ newHandler "echo" with
      sandbox := some ⟨1, true⟩
      lastPull := some 2
      state := .Paused
      runners := 0 }, ["echo"], false⟩

/-- A warm controller running one invocation. -/
def stRunning : HState :=
  ⟨{ newHandler "echo" with
      sandbox := some ⟨1, true⟩
      lastPull := some 2
      state := .Running
      runners := 1 }, [], false⟩

/-! ## The claims -/

/-- Claim C10 (confirmed): when the final channel acquisition fails at the
end of `RunStart`, the call returns an error, but the controller's state
has already been set to `Running` and its runner count has already been
incremented, leaving an increment the caller is not obligated to balance
with `RunFinish`. -/
theorem claim_C10 (st : HState) (env : Env) (e : Nat)
    (h : (RunStart st env).res = .error (.channelErr e)) :
    (RunStart st env).st.h.state = .Running ∧
    (RunStart st env).st.h.runners = st.h.runners + 1 :=
  runStart_through_st st env (Or.inr ⟨e, h⟩)

theorem claim_C10_witness :
    (RunStart stRunning { envOk with channelResult := .error 9 }).res =
      .error (.channelErr 9) ∧
    (RunStart stRunning { envOk with channelResult := .error 9 }).st.h.state = .Running ∧
    (RunStart stRunning { envOk with channelResult := .error 9 }).st.h.runners =
      stRunning.h.runners + 1 :=
  ⟨by decide, claim_C10 stRunning { envOk with channelResult := .error 9 } 9 (by decide)⟩

/-- Claim C4 (confirmed): on a controller with a sandbox, when `RunFinish`
decrements the runner count to exactly 0 it attempts `Pause` (the `pauseEv`
in the trace), and — for every environment, so whether or not the pause
succeeds — sets the state to `Paused` and adds the controller to the
eviction structure; when the decrement leaves the count above 0, no pause
is attempted, the state is unchanged and the eviction structure is
untouched.  `RunFinish` is total with no error component: it never returns
an error to its caller. -/
theorem claim_C4 (st : HState) (env : Env) (s : Sandbox)
    (_hsb : st.h.sandbox = some s) :
    (st.h.runners - 1 = 0 →
      (RunFinish st env).2 = [.pauseEv] ∧
      (RunFinish st env).1.h.state = .Paused ∧
      st.h.name ∈ (RunFinish st env).1.lru ∧
      (RunFinish st env).1.h.runners = 0) ∧
    (0 < st.h.runners - 1 →
      (RunFinish st env).2 = [] ∧
      (RunFinish st env).1.h.state = st.h.state ∧
      (RunFinish st env).1.lru = st.lru ∧
      (RunFinish st env).1.h.runners = st.h.runners - 1) := by
  constructor
  · intro h0
    obtain ⟨h1, h2⟩ := runFinish_last st env h0
    rw [h1, h2]
    refine ⟨rfl, rfl, ?_, h0⟩
    simp [lruAdd]
  · intro h0
    obtain ⟨h1, h2⟩ := runFinish_not_last st env (by omega)
    rw [h1, h2]
    exact ⟨rfl, rfl, rfl, rfl⟩

theorem claim_C4_witness :
    (RunFinish stRunning { envOk with pauseResult := some 5 }).2 = [.pauseEv] ∧
    (RunFinish stRunning { envOk with pauseResult := some 5 }).1.h.state = .Paused ∧
    stRunning.h.name ∈ (RunFinish stRunning { envOk with pauseResult := some 5 }).1.lru ∧
    (RunFinish stRunning { envOk with pauseResult := some 5 }).1.h.runners = 0 :=
  (claim_C4 stRunning { envOk with pauseResult := some 5 } ⟨1, true⟩ (by decide)).1 (by decide)

/-- Claim C5 (confirmed): `StopIfPaused` is a no-op (state, all other
fields and even the call trace unchanged) unless the state is exactly
`Paused`; from `Paused` it attempts unpause then stop, stays `Paused` if
the unpause fails, stays `Paused` if the unpause succeeds but the stop
fails, and becomes `Stopped` only when both succeed.  It is total with no
error component: it never raises an error to its caller. -/
theorem claim_C5 (st : HState) (env : Env) :
    (st.h.state ≠ .Paused → StopIfPaused st env = (st, [])) ∧
    (st.h.state = .Paused →
      (∀ e, env.unpauseResult = some e → StopIfPaused st env = (st, [.unpauseEv])) ∧
      (∀ e, env.unpauseResult = none → env.stopResult = some e →
        StopIfPaused st env = (st, [.unpauseEv, .stopEv])) ∧
      (env.unpauseResult = none → env.stopResult = none →
        StopIfPaused st env =
          ({ st with h := { st.h with state := .Stopped } }, [.unpauseEv, .stopEv]))) := by
  refine ⟨stop_not_paused st env, fun hp => ⟨?_, ?_, stop_both_ok st env hp⟩⟩
  · intro e he
    exact stop_unpause_fail st env hp he
  · intro e h1 h2
    exact stop_stop_fail st env hp h1 h2

theorem claim_C5_witness :
    StopIfPaused stPaused { envOk with unpauseResult := some 4 } =
      (stPaused, [.unpauseEv]) ∧
    StopIfPaused stPaused envOk =
      ({ stPaused with h := { stPaused.h with state := .Stopped } },
        [.unpauseEv, .stopEv]) :=
  ⟨((claim_C5 stPaused { envOk with unpauseResult := some 4 }).2 (by decide)).1 4 (by decide),
   ((claim_C5 stPaused envOk).2 (by decide)).2.2 (by decide) (by decide)⟩

/-- Claim C6 (confirmed): on a controller with a sandbox cached as
`Paused` (hence with its code already pulled), `RunStart` unpauses,
removes the controller from the eviction structure, sets the state to
`Running`, increments the runner count, and returns the channel obtained
from the sandbox; if the unpause fails it returns that error with the
controller (state, count, eviction structure) completely unchanged. -/
theorem claim_C6 (st : HState) (env : Env) (s : Sandbox) (t : Nat)
    (hsb : st.h.sandbox = some s) (hp : st.h.state = .Paused)
    (hl : st.h.lastPull = some t) :
    (env.unpauseResult = none →
      (∀ c, env.channelResult = .ok c → (RunStart st env).res = .ok c) ∧
      (RunStart st env).st.h.state = .Running ∧
      (RunStart st env).st.h.runners = st.h.runners + 1 ∧
      (RunStart st env).st.lru = lruRemove st.lru st.h.name ∧
      st.h.name ∉ (RunStart st env).st.lru ∧
      (RunStart st env).events = [.unpauseEv, .channelEv]) ∧
    (∀ e, env.unpauseResult = some e →
      (RunStart st env).res = .error (.unpauseErr e) ∧
      (RunStart st env).st = st ∧
      (RunStart st env).events = [.unpauseEv]) := by
  constructor
  · intro hu
    rw [runStart_pulled st env t hl, sandbox_warm_paused_ok st env [] s hsb hp hu]
    refine ⟨fun c hc => finish_res_ok _ _ _ c hc, ?_, ?_, ?_, ?_, ?_⟩
    · rw [finish_st]
    · rw [finish_st]
    · rw [finish_st]
    · rw [finish_st]
      simp [lruRemove]
    · simp [finish_events]
  · intro e hu
    rw [runStart_pulled st env t hl, sandbox_warm_paused_fail st env [] s hsb hp hu]
    exact ⟨rfl, rfl, rfl⟩

theorem claim_C6_witness :
    (RunStart stPaused envOk).res = .ok ⟨3⟩ ∧
    (RunStart stPaused envOk).st.h.state = .Running ∧
    (RunStart stPaused envOk).st.h.runners = stPaused.h.runners + 1 ∧
    stPaused.h.name ∉ (RunStart stPaused envOk).st.lru := by
  have h := (claim_C6 stPaused envOk ⟨1, true⟩ 2 (by decide) (by decide) (by decide)).1
    (by decide)
  exact ⟨h.1 ⟨3⟩ (by decide), h.2.1, h.2.2.1, h.2.2.2.2.1⟩

/-- Claim C8 (confirmed): on a controller whose code was never pulled, a
fetch failure makes `RunStart` return that error with the entire state
(controller fields, eviction structure) unchanged; on fetch success the
pull timestamp and code directory are recorded and survive the rest of the
call; and once `lastPull` is set, no later `RunStart` performs a pull. -/
theorem claim_C8 (st : HState) (env : Env) :
    (st.h.lastPull = none →
      (∀ e, env.pullResult = .error e →
        (RunStart st env).res = .error (.pullErr e) ∧ (RunStart st env).st = st) ∧
      (∀ d, env.pullResult = .ok d →
        (RunStart st env).st.h.lastPull = some env.pullTime ∧
        (RunStart st env).st.h.codeDir = d)) ∧
    (∀ t, st.h.lastPull = some t → .pullEv ∉ (RunStart st env).events) := by
  constructor
  · intro hl
    constructor
    · intro e he
      rw [runStart_pull_fail st env hl he]
      exact ⟨rfl, rfl⟩
    · intro d hd
      rw [runStart_pull_ok st env d hl hd]
      have h := sandbox_preserves
        { st with h := { st.h with lastPull := some env.pullTime, codeDir := d } }
        env [.pullEv]
      exact ⟨by rw [h.1], by rw [h.2]⟩
  · exact fun t ht => runStart_no_pull_event st env t ht

theorem claim_C8_witness :
    (RunStart stFresh { envOk with pullResult := .error 6 }).res = .error (.pullErr 6) ∧
    (RunStart stFresh { envOk with pullResult := .error 6 }).st = stFresh ∧
    (RunStart stFresh envOk).st.h.lastPull = some envOk.pullTime ∧
    (RunStart stFresh envOk).st.h.codeDir = "codedir" ∧
    .pullEv ∉ (RunStart stRunning envOk).events := by
  have h1 := ((claim_C8 stFresh { envOk with pullResult := .error 6 }).1 (by decide)).1 6
    (by decide)
  have h2 := ((claim_C8 stFresh envOk).1 (by decide)).2 "codedir" (by decide)
  have h3 := (claim_C8 stRunning envOk).2 2 (by decide)
  exact ⟨h1.1, h1.2, h2.1, h2.2, h3⟩

/-- Claim C9 (confirmed): after a fully successful `StopIfPaused` the
state is `Stopped` and the sandbox handle is still present; the next
`RunStart` therefore performs no pull, no directory creation, no sandbox
creation, no start and no unpause — its whole call trace is the single
channel acquisition — and it simply marks the controller `Running`,
increments the runner count, and returns a channel obtained from the
already-stopped sandbox. -/
theorem claim_C9 (st : HState) (env1 env2 : Env) (s : Sandbox) (t : Nat) (c : SandboxChannel)
    (hp : st.h.state = .Paused) (hsb : st.h.sandbox = some s) (hl : st.h.lastPull = some t)
    (hu : env1.unpauseResult = none) (hst : env1.stopResult = none)
    (hc : env2.channelResult = .ok c) :
    (StopIfPaused st env1).1.h.state = .Stopped ∧
    (StopIfPaused st env1).1.h.sandbox = some s ∧
    (RunStart (StopIfPaused st env1).1 env2).res = .ok c ∧
    (RunStart (StopIfPaused st env1).1 env2).st.h.state = .Running ∧
    (RunStart (StopIfPaused st env1).1 env2).st.h.runners = st.h.runners + 1 ∧
    (RunStart (StopIfPaused st env1).1 env2).events = [.channelEv] := by
  rw [stop_both_ok st env1 hp hu hst]
  dsimp only
  refine ⟨rfl, hsb, ?_, ?_, ?_, ?_⟩ <;>
    rw [runStart_pulled _ env2 t (by simpa using hl),
      sandbox_warm_other _ env2 [] s (by simpa using hsb) (by simp)]
  · exact finish_res_ok _ _ _ c hc
  · rw [finish_st]
  · rw [finish_st]
  · simp [finish_events]

theorem claim_C9_witness :
    (StopIfPaused stPaused envOk).1.h.state = .Stopped ∧
    (StopIfPaused stPaused envOk).1.h.sandbox = some ⟨1, true⟩ ∧
    (RunStart (StopIfPaused stPaused envOk).1 envOk).res = .ok ⟨3⟩ ∧
    (RunStart (StopIfPaused stPaused envOk).1 envOk).st.h.state = .Running ∧
    (RunStart (StopIfPaused stPaused envOk).1 envOk).st.h.runners = stPaused.h.runners + 1 ∧
    (RunStart (StopIfPaused stPaused envOk).1 envOk).events = [.channelEv] :=
  claim_C9 stPaused envOk envOk ⟨1, true⟩ 2 ⟨3⟩ (by decide) (by decide) (by decide)
    (by decide) (by decide) (by decide)

/-- Claim C1 (corrected) counterexample: a cold start in which the code
fetch succeeds and then the sandbox-directory creation fails.  `RunStart`
returns the error, but the controller is not left exactly as it was: the
pull timestamp (and code directory) have been recorded. -/
theorem claim_C1_counterexample :
    stFresh.h.sandbox = none ∧
    stFresh.h.lastPull = none ∧
    (RunStart stFresh { envOk with mkdirResult := some 4 }).res = .error (.mkdirErr 4) ∧
    (RunStart stFresh { envOk with mkdirResult := some 4 }).st.h.lastPull = some 7 ∧
    (RunStart stFresh { envOk with mkdirResult := some 4 }).st.h.lastPull ≠
      stFresh.h.lastPull := by
  decide

/-- Claim C1 (amended, proved): on a controller with no sandbox, when
`RunStart` fails: at the code fetch, nothing at all changes; at the
directory creation or the sandbox creation, the sandbox stays absent and
state, runner count and eviction structure are unchanged, but a fetch
performed by this call leaves `lastPull` and `codeDir` recorded (while if
the code was already fetched, nothing changes at all); at the state query,
start, unpause or capability check, the newly created sandbox handle has
already been recorded — so a later `RunStart` will not retry the full
cold-start sequence — though the runner count is still unchanged. -/
theorem claim_C1_amended (st : HState) (env : Env) (hsb : st.h.sandbox = none) :
    (∀ e, (RunStart st env).res = .error (.pullErr e) → (RunStart st env).st = st) ∧
    (∀ e, ((RunStart st env).res = .error (.mkdirErr e) ∨
           (RunStart st env).res = .error (.createErr e)) →
      (RunStart st env).st.h.sandbox = none ∧
      (RunStart st env).st.h.state = st.h.state ∧
      (RunStart st env).st.h.runners = st.h.runners ∧
      (RunStart st env).st.lru = st.lru ∧
      (st.h.lastPull = none →
        (RunStart st env).st.h.lastPull = some env.pullTime ∧
        env.pullResult = .ok (RunStart st env).st.h.codeDir) ∧
      (st.h.lastPull ≠ none → (RunStart st env).st = st)) ∧
    (MidErr (RunStart st env) →
      (RunStart st env).st.h.sandbox ≠ none ∧
      (RunStart st env).st.h.runners = st.h.runners) := by
  have master := runStart_cold_full st env hsb
  refine ⟨?_, ?_, ?_⟩
  · intro e he
    rcases master with h | ⟨_, hst⟩ | ⟨⟨e2, h2⟩, _⟩ | ⟨hmid, _⟩
    · rcases h with ⟨c, hc⟩ | ⟨e2, hc⟩ <;> simp [he] at hc
    · exact hst
    · rcases h2 with h2 | h2 <;> simp [he] at h2
    · unfold MidErr at hmid
      rcases hmid with ⟨e2, h2⟩ | ⟨e2, h2⟩ | ⟨e2, h2⟩ | h2 <;> simp [he] at h2
  · intro e he
    rcases master with h | ⟨⟨e2, h2⟩, _⟩ | ⟨_, rest⟩ | ⟨hmid, _⟩
    · rcases h with ⟨c, hc⟩ | ⟨e2, hc⟩ <;> rcases he with he | he <;> simp [he] at hc
    · rcases he with he | he <;> simp [he] at h2
    · exact rest
    · unfold MidErr at hmid
      rcases hmid with ⟨e2, h2⟩ | ⟨e2, h2⟩ | ⟨e2, h2⟩ | h2 <;> rcases he with he | he <;>
        simp [he] at h2
  · intro hmid
    rcases master with h | ⟨⟨e2, h2⟩, _⟩ | ⟨⟨e2, h2⟩, _⟩ | ⟨_, h1, _, h3⟩
    · unfold MidErr at hmid
      rcases h with ⟨c, hc⟩ | ⟨e2, hc⟩ <;>
        rcases hmid with ⟨e3, h3⟩ | ⟨e3, h3⟩ | ⟨e3, h3⟩ | h3 <;> simp [h3] at hc
    · unfold MidErr at hmid
      rcases hmid with ⟨e3, h3⟩ | ⟨e3, h3⟩ | ⟨e3, h3⟩ | h3 <;> simp [h3] at h2
    · unfold MidErr at hmid
      rcases h2 with h2 | h2 <;>
        rcases hmid with ⟨e3, h3⟩ | ⟨e3, h3⟩ | ⟨e3, h3⟩ | h3 <;> simp [h3] at h2
    · exact ⟨h1, h3⟩

theorem claim_C1_amended_witness :
    (RunStart stFresh { envOk with createResult := .error 5 }).st.h.sandbox = none ∧
    (RunStart stFresh { envOk with createResult := .error 5 }).st.h.state =
      stFresh.h.state ∧
    (RunStart stFresh { envOk with createResult := .error 5 }).st.h.runners =
      stFresh.h.runners ∧
    (RunStart stFresh { envOk with createResult := .error 5 }).st.lru = stFresh.lru := by
  have h := (claim_C1_amended stFresh { envOk with createResult := .error 5 }
    (by decide)).2.1 5 (Or.inr (by decide))
  exact ⟨h.1, h.2.1, h.2.2.1, h.2.2.2.1⟩

/-- A cold controller in a worker configured with a pool manager. -/
def stCold : HState := ⟨newHandler "echo", [], true⟩

/-- Claim C7 (corrected) counterexample: a run in which the
sandbox-creation path is taken (the factory is invoked and a sandbox that
does not support the container capability is created), a pool manager is
configured — yet no capability-mismatch error is raised, because `Start()`
fails first and that error is surfaced instead. -/
theorem claim_C7_counterexample :
    stCold.h.sandbox = none ∧
    stCold.poolMgr = true ∧
    ({ envOk with createResult := .ok ⟨7, false⟩, startResult := some 3 } : Env).createResult =
      .ok ⟨7, false⟩ ∧
    (Sandbox.mk 7 false).isContainer = false ∧
    .createEv ∈
      (RunStart stCold { envOk with createResult := .ok ⟨7, false⟩, startResult := some 3 }).events ∧
    (RunStart stCold { envOk with createResult := .ok ⟨7, false⟩, startResult := some 3 }).res =
      .error (.startErr 3) ∧
    (RunStart stCold { envOk with createResult := .ok ⟨7, false⟩, startResult := some 3 }).res ≠
      .error .capabilityErr := by
  decide

theorem pool_c7 (st : HState) (sbx : Sandbox) (env : Env) (evs : List Event)
    (hpm : st.poolMgr = true) :
    (sbx.isContainer = false → (RunStartPool st sbx env evs).res = .error .capabilityErr) ∧
    (sbx.isContainer = true → .forkEnterEv ∈ (RunStartPool st sbx env evs).events ∧
      (RunStartPool st sbx env evs).res ≠ .error .capabilityErr) := by
  constructor
  · intro hc
    rw [pool_mismatch st sbx env evs hpm hc]
  · intro hc
    rw [pool_container st sbx env evs hpm hc]
    exact ⟨by simp [finish_events], finish_no_cap _ _ _⟩

theorem sandbox_c7 (st : HState) (env : Env) (evs : List Event) (sbx : Sandbox)
    (hsb : st.h.sandbox = none) (hm : env.mkdirResult = none)
    (hcr : env.createResult = .ok sbx) (hq : env.stateResult.2 = none)
    (hstart : env.stateResult.1 = .Stopped → env.startResult = none)
    (hunp : env.stateResult.1 = .Paused → env.unpauseResult = none) :
    ∃ evs2, RunStartSandbox st env evs =
      RunStartPool { st with h := { st.h with sandbox := some sbx, state := env.stateResult.1 } }
        sbx env evs2 := by
  rw [sandbox_state_ok st env evs sbx hsb hm hcr hq]
  rcases hc : env.stateResult.1 with _ | _ | _ | _
  · exact ⟨_, letRun_other _ sbx env _ (by simp [hc]) (by simp [hc])⟩
  · exact ⟨_, letRun_stopped_ok _ sbx env _ (by simp [hc]) (hstart hc)⟩
  · exact ⟨_, letRun_paused_ok _ sbx env _ (by simp [hc]) (hunp hc)⟩
  · exact ⟨_, letRun_other _ sbx env _ (by simp [hc]) (by simp [hc])⟩

theorem runStart_c7_reach (st : HState) (env : Env) (sbx : Sandbox)
    (hsb : st.h.sandbox = none)
    (hpl : st.h.lastPull = none → ∃ d, env.pullResult = .ok d)
    (hm : env.mkdirResult = none) (hcr : env.createResult = .ok sbx)
    (hq : env.stateResult.2 = none)
    (hstart : env.stateResult.1 = .Stopped → env.startResult = none)
    (hunp : env.stateResult.1 = .Paused → env.unpauseResult = none) :
    ∃ st2 evs2, RunStart st env = RunStartPool st2 sbx env evs2 ∧
      st2.poolMgr = st.poolMgr := by
  rcases hlp : st.h.lastPull with _ | t
  · obtain ⟨d, hd⟩ := hpl hlp
    rw [runStart_pull_ok st env d hlp hd]
    obtain ⟨evs2, heq⟩ :=
      sandbox_c7 { st with h := { st.h with lastPull := some env.pullTime, codeDir := d } }
        env [.pullEv] sbx (by simpa using hsb) hm hcr hq hstart hunp
    exact ⟨_, evs2, heq, rfl⟩
  · rw [runStart_pulled st env t hlp]
    obtain ⟨evs2, heq⟩ := sandbox_c7 st env [] sbx hsb hm hcr hq hstart hunp
    exact ⟨_, evs2, heq, rfl⟩

/-- Claim C7 (amended, proved): `RunStart` raises the capability-mismatch
error exactly when it takes the sandbox-creation path, the preparatory
steps up to the capability check succeed (directory creation, sandbox
creation, state query, and the start or unpause the queried state calls
for), a pool manager is configured, and the created sandbox does not
support the container capability.  In that configuration with a
container-capable sandbox, fork-enter registration is invoked and no such
error is raised; with no pool manager configured, no fork-enter
registration ever happens and the capability error is never raised. -/
theorem claim_C7_amended (st : HState) (env : Env) :
    ((RunStart st env).res = .error .capabilityErr →
      st.h.sandbox = none ∧ st.poolMgr = true ∧
        ∃ sbx, env.createResult = .ok sbx ∧ sbx.isContainer = false) ∧
    (∀ sbx, st.h.sandbox = none →
      (st.h.lastPull = none → ∃ d, env.pullResult = .ok d) →
      env.mkdirResult = none → env.createResult = .ok sbx →
      env.stateResult.2 = none →
      (env.stateResult.1 = .Stopped → env.startResult = none) →
      (env.stateResult.1 = .Paused → env.unpauseResult = none) →
      ((st.poolMgr = true → sbx.isContainer = false →
          (RunStart st env).res = .error .capabilityErr) ∧
       (st.poolMgr = true → sbx.isContainer = true →
          .forkEnterEv ∈ (RunStart st env).events ∧
          (RunStart st env).res ≠ .error .capabilityErr))) ∧
    (st.poolMgr = false →
      .forkEnterEv ∉ (RunStart st env).events ∧
      (RunStart st env).res ≠ .error .capabilityErr) := by
  refine ⟨runStart_cap st env, ?_, ?_⟩
  · intro sbx hsb hpl hm hcr hq hstart hunp
    obtain ⟨st2, evs2, heq, hpm2⟩ := runStart_c7_reach st env sbx hsb hpl hm hcr hq hstart hunp
    rw [heq]
    constructor
    · intro hpm hc
      exact (pool_c7 st2 sbx env evs2 (by rw [hpm2, hpm])).1 hc
    · intro hpm hc
      exact (pool_c7 st2 sbx env evs2 (by rw [hpm2, hpm])).2 hc
  · intro hpm
    refine ⟨runStart_no_fork_event st env hpm, fun hc => ?_⟩
    have := (runStart_cap st env hc).2.1
    rw [hpm] at this
    exact Bool.false_ne_true this

theorem claim_C7_amended_witness :
    (RunStart stCold { envOk with createResult := .ok ⟨7, false⟩ }).res =
      .error .capabilityErr ∧
    .forkEnterEv ∈ (RunStart stCold envOk).events ∧
    (RunStart stCold envOk).res ≠ .error .capabilityErr ∧
    .forkEnterEv ∉ (RunStart stFresh envOk).events := by
  have h1 := ((claim_C7_amended stCold { envOk with createResult := .ok ⟨7, false⟩ }).2.1
    ⟨7, false⟩ (by decide) (fun _ => ⟨"codedir", by decide⟩) (by decide) (by decide)
    (by decide) (fun _ => by decide) (fun _ => by decide)).1 (by decide) (by decide)
  have h2 := ((claim_C7_amended stCold envOk).2.1 ⟨1, true⟩ (by decide)
    (fun _ => ⟨"codedir", by decide⟩) (by decide) (by decide) (by decide)
    (fun _ => by decide) (fun _ => by decide)).2 (by decide) (by decide)
  have h3 := ((claim_C7_amended stFresh envOk).2.2 (by decide)).1
  exact ⟨h1, h2.1, h2.2, h3⟩

/-- The environment of the C2 counterexample: sandbox creation yields a
non-container sandbox that reports `Running`. -/
def envRunningCap : Env :=
  { envOk with
      createResult := .ok ⟨7, false⟩
      stateResult := (.Running, none) }

/-- Claim C2 (corrected) counterexample: the sequence consisting of one
`RunStart` that fails at the capability check after the freshly created
sandbox reported `Running` is admissible for the claim (it contains no
`RunFinish` at all), yet afterwards the controller has `state = Running`
with `RunnerCount = 0`, violating the invariant. -/
theorem claim_C2_counterexample :
    TraceWF ⟨newHandler "echo", [], true⟩ 0 [.runStartOp envRunningCap] = true ∧
    ¬ Invariant (runOps ⟨newHandler "echo", [], true⟩ [.runStartOp envRunningCap]).h :=
  ⟨by decide, by decide⟩

theorem resOk_through (r : RunStartRes) (h : resOk r.res = true) : ThroughFinish r := by
  unfold resOk at h
  unfold ThroughFinish
  split at h
  · exact Or.inl ⟨_, by assumption⟩
  · simp at h

/-- The strengthened induction invariant for claim C2: the runner count
equals the balance of successful starts not yet finished. -/
def AuxInv (st : HState) (bal : Nat) : Prop :=
  st.h.runners = (bal : Int) ∧
  (0 < bal → st.h.state = .Running) ∧
  (bal = 0 → st.h.state = .Paused ∨ st.h.state = .Stopped ∨ st.h.state = .Unitialized)

theorem auxInv_invariant (st : HState) (bal : Nat) (h : AuxInv st bal) :
    Invariant st.h := by
  obtain ⟨h1, h2, h3⟩ := h
  rcases Nat.eq_zero_or_pos bal with hb | hb
  · subst hb
    refine ⟨by simp [h1], ?_, fun _ => h3 rfl, ?_⟩
    · intro hr
      rcases h3 rfl with hh | hh | hh <;> rw [hh] at hr <;> cases hr
    · intro hr
      rw [h1] at hr
      simp at hr
  · refine ⟨by omega, fun _ => by omega, ?_, fun _ => h2 hb⟩
    intro h0
    rw [h0] at h1
    omega

theorem trace_invariant (ops : List Op) :
    ∀ st bal, AuxInv st bal → TraceWF st bal ops = true → StartsOk st ops = true →
      Invariant (runOps st ops).h := by
  induction ops with
  | nil =>
    intro st bal h _ _
    exact auxInv_invariant st bal h
  | cons op rest ih =>
    intro st bal h hwf hok
    match op with
    | .runStartOp env =>
      unfold StartsOk at hok
      rw [Bool.and_eq_true] at hok
      obtain ⟨hok1, hok2⟩ := hok
      have hs := runStart_through_st st env (resOk_through _ hok1)
      unfold TraceWF at hwf
      rw [hok1] at hwf
      simp only [if_true] at hwf
      refine ih (RunStart st env).st (bal + 1) ⟨?_, fun _ => hs.1, by simp⟩ hwf hok2
      rw [hs.2, h.1]
      push_cast
      ring
    | .runFinishOp env =>
      unfold TraceWF at hwf
      rw [Bool.and_eq_true] at hwf
      obtain ⟨hb, hwf2⟩ := hwf
      have hb1 : 1 ≤ bal := of_decide_eq_true hb
      unfold StartsOk at hok
      obtain ⟨h1, h2, h3⟩ := h
      rcases Nat.lt_or_ge 1 bal with hbig | hsmall
      · have hne : st.h.runners - 1 ≠ 0 := by omega
        obtain ⟨hf1, _⟩ := runFinish_not_last st env hne
        refine ih (RunFinish st env).1 (bal - 1) ⟨?_, ?_, ?_⟩ hwf2 hok
        · rw [hf1]
          simp only []
          push_cast [Nat.cast_sub hb1]
          omega
        · intro _
          rw [hf1]
          exact h2 (by omega)
        · intro hz
          omega
      · have hbal : bal = 1 := by omega
        subst hbal
        have hz : st.h.runners - 1 = 0 := by omega
        obtain ⟨hf1, _⟩ := runFinish_last st env hz
        refine ih (RunFinish st env).1 0 ⟨?_, by simp, fun _ => ?_⟩ hwf2 hok
        · rw [hf1]
          simp only []
          omega
        · rw [hf1]
          exact Or.inl rfl
    | .stopIfPausedOp env =>
      unfold TraceWF at hwf
      unfold StartsOk at hok
      rcases stop_shape st env with hsame | ⟨hp, hstopped⟩
      · refine ih (StopIfPaused st env).1 bal ?_ hwf hok
        rw [hsame]
        exact h
      · obtain ⟨h1, h2, h3⟩ := h
        have hb0 : bal = 0 := by
          by_contra hne
          have := h2 (Nat.pos_of_ne_zero hne)
          rw [hp] at this
          cases this
        subst hb0
        refine ih (StopIfPaused st env).1 0 ⟨?_, by simp, fun _ => ?_⟩ hwf hok
        · rw [hstopped]
          exact h1
        · rw [hstopped]
          exact Or.inr (Or.inl rfl)
    | .getOp =>
      unfold TraceWF at hwf
      unfold StartsOk at hok
      exact ih st bal h hwf hok

/-- Claim C2 (amended, proved): for every controller as created by `Get`
and every sequence of calls in which each `RunFinish` is preceded by a
matching successful `RunStart` and moreover *every* `RunStart` in the
sequence succeeds, the observation-point invariant holds after the
sequence (and hence, applied to each prefix, at every point between
calls): the runner count is non-negative, `Running` implies at least one
runner, zero runners implies `Paused`, `Stopped` or `Unitialized`, and a
positive count implies `Running`. -/
theorem claim_C2_amended (name : String) (pm : Bool) (ops : List Op)
    (hwf : TraceWF ⟨newHandler name, [], pm⟩ 0 ops = true)
    (hok : StartsOk ⟨newHandler name, [], pm⟩ ops = true) :
    Invariant (runOps ⟨newHandler name, [], pm⟩ ops).h :=
  trace_invariant ops ⟨newHandler name, [], pm⟩ 0
    ⟨by simp [newHandler], by simp, fun _ => Or.inr (Or.inr rfl)⟩ hwf hok

theorem claim_C2_amended_witness :
    Invariant (runOps ⟨newHandler "echo", [], false⟩
      [.runStartOp envOk, .runFinishOp envOk, .stopIfPausedOp envOk]).h :=
  claim_C2_amended "echo" false
    [.runStartOp envOk, .runFinishOp envOk, .stopIfPausedOp envOk]
    (by decide) (by decide)

/-! ### Registry lemmas for claim C3 -/

theorem findHandler_append (l : List (String × Handler)) (n : String) (hh : Handler)
    (t : String) :
    findHandler (l ++ [(n, hh)]) t =
      match findHandler l t with
      | some h0 => some h0
      | none => if n = t then some hh else none := by
  induction l with
  | nil => simp [findHandler]
  | cons p rest ih =>
    obtain ⟨pn, ph⟩ := p
    by_cases hp : pn = t
    · simp [findHandler, hp]
    · simp [findHandler, hp, ih]

theorem get_found (hs : HandlerSet) (n : String) (h0 : Handler)
    (hf : findHandler hs.handlers n = some h0) :
    hs.Get n = ⟨h0, hs, false⟩ := by
  unfold HandlerSet.Get
  simp [hf]

theorem get_missing (hs : HandlerSet) (n : String)
    (hf : findHandler hs.handlers n = none) :
    hs.Get n = ⟨newHandler n, ⟨hs.handlers ++ [(n, newHandler n)]⟩, true⟩ := by
  unfold HandlerSet.Get
  simp [hf]

theorem get_other (hs : HandlerSet) (n t : String) (hne : n ≠ t) :
    findHandler (hs.Get n).hs.handlers t = findHandler hs.handlers t := by
  unfold HandlerSet.Get
  split
  · rfl
  · rename_i hf
    show findHandler (hs.handlers ++ [(n, newHandler n)]) t = _
    rw [findHandler_append]
    cases hft : findHandler hs.handlers t <;> simp [hft, hne]

theorem getsTrace_spec (names : List String) :
    ∀ hs t,
      (findHandler hs.handlers t = some (newHandler t) →
        (∀ hh ∈ (getsTrace hs names t).2.1, hh = newHandler t) ∧
        (getsTrace hs names t).2.2 = 0 ∧
        findHandler (getsTrace hs names t).1.handlers t = some (newHandler t)) ∧
      (findHandler hs.handlers t = none →
        (∀ hh ∈ (getsTrace hs names t).2.1, hh = newHandler t) ∧
        (t ∈ names →
          (getsTrace hs names t).2.2 = 1 ∧
          findHandler (getsTrace hs names t).1.handlers t = some (newHandler t)) ∧
        (t ∉ names →
          (getsTrace hs names t).2.2 = 0 ∧
          findHandler (getsTrace hs names t).1.handlers t = none)) := by
  induction names with
  | nil =>
    intro hs t
    constructor
    · intro hf
      exact ⟨by simp [getsTrace], by simp [getsTrace], by simpa [getsTrace] using hf⟩
    · intro hf
      refine ⟨by simp [getsTrace], by simp, fun _ => ?_⟩
      exact ⟨by simp [getsTrace], by simpa [getsTrace] using hf⟩
  | cons n rest ih =>
    intro hs t
    constructor
    · intro hf
      by_cases hnt : n = t
      · subst hnt
        have hget := get_found hs n (newHandler n) hf
        have hrec := (ih hs n).1 hf
        refine ⟨?_, ?_, ?_⟩
        · intro hh hmem
          simp only [getsTrace, hget] at hmem
          simp at hmem
          rcases hmem with hm | hm
          · exact hm
          · exact hrec.1 hh hm
        · simp only [getsTrace, hget]
          simp [hrec.2.1]
        · simp only [getsTrace, hget]
          simpa using hrec.2.2
      · have hstep : findHandler (hs.Get n).hs.handlers t = some (newHandler t) := by
          rw [get_other hs n t hnt]
          exact hf
        have hrec := (ih (hs.Get n).hs t).1 hstep
        refine ⟨?_, ?_, hrec.2.2⟩
        · intro hh hmem
          simp only [getsTrace, if_neg hnt] at hmem
          exact hrec.1 hh (by simpa using hmem)
        · simp only [getsTrace]
          simp [hnt, hrec.2.1]
    · intro hf
      by_cases hnt : n = t
      · subst hnt
        have hget := get_missing hs n hf
        have hnew : findHandler (hs.handlers ++ [(n, newHandler n)]) n =
            some (newHandler n) := by
          rw [findHandler_append, hf]
          simp
        have hrec := (ih ⟨hs.handlers ++ [(n, newHandler n)]⟩ n).1 hnew
        refine ⟨?_, fun _ => ⟨?_, ?_⟩, fun habs => absurd (by simp) habs⟩
        · intro hh hmem
          simp only [getsTrace, hget] at hmem
          simp at hmem
          rcases hmem with hm | hm
          · exact hm
          · exact hrec.1 hh hm
        · simp only [getsTrace, hget]
          simp [hrec.2.1]
        · simp only [getsTrace, hget]
          simpa using hrec.2.2
      · have hstep : findHandler (hs.Get n).hs.handlers t = none := by
          rw [get_other hs n t hnt]
          exact hf
        have hrec := (ih (hs.Get n).hs t).2 hstep
        refine ⟨?_, fun hmem => ?_, fun hnmem => ?_⟩
        · intro hh hmem
          simp only [getsTrace, if_neg hnt] at hmem
          exact hrec.1 hh (by simpa using hmem)
        · have htr : t ∈ rest := by
            rcases List.mem_cons.mp hmem with hm | hm
            · exact absurd hm.symm hnt
            · exact hm
          have h2 := hrec.2.1 htr
          constructor
          · simp only [getsTrace]
            simp [hnt, h2.1]
          · exact h2.2
        · have htr : t ∉ rest := fun hm => hnmem (List.mem_cons_of_mem n hm)
          have h2 := hrec.2.2 htr
          constructor
          · simp only [getsTrace]
            simp [hnt, h2.1]
          · exact h2.2

/-- Claim C3 (confirmed): over any sequence of `Get` calls starting from
the empty registry, for a name that is looked up at least once, exactly
one controller instance is ever created; every `Get` of that name returns
that same instance (the one registered on the first call, never
overwritten); that instance starts in state `Unitialized` with a runner
count of 0; and a `Get` of any other name leaves the registered entry for
the name untouched. -/
theorem claim_C3 (names : List String) (t : String) (ht : t ∈ names) :
    (getsTrace emptySet names t).2.2 = 1 ∧
    (∀ hh ∈ (getsTrace emptySet names t).2.1, hh = newHandler t) ∧
    findHandler (getsTrace emptySet names t).1.handlers t = some (newHandler t) ∧
    (newHandler t).state = .Unitialized ∧
    (newHandler t).runners = 0 ∧
    (∀ hs n, n ≠ t →
      findHandler (HandlerSet.Get hs n).hs.handlers t = findHandler hs.handlers t) := by
  have h0 : findHandler emptySet.handlers t = none := rfl
  have h := (getsTrace_spec names emptySet t).2 h0
  exact ⟨(h.2.1 ht).1, h.1, (h.2.1 ht).2, rfl, rfl, fun hs n hne => get_other hs n t hne⟩

theorem claim_C3_witness :
    (getsTrace emptySet ["a", "b", "a"] "a").2.2 = 1 ∧
    findHandler (getsTrace emptySet ["a", "b", "a"] "a").1.handlers "a" =
      some (newHandler "a") := by
  have h := claim_C3 ["a", "b", "a"] "a" (by simp)
  exact ⟨h.1, h.2.2.1⟩

end OpenLambda
